import Mathlib

/-!
Verification development for the minoru-packing-tools packing core.

The definitions below are a shallow embedding of the repository's Python
source (src/src/data/products.py, src/src/data/boxes.py,
src/src/core/packing_optimizer.py, src/src/data/rates.py,
src/src/advanced/multi_carrier.py).  Python floats are modelled as ℚ —
every constant in the source is a decimal literal, so arithmetic on them
is exact.  Python functions that can raise are modelled with
Option/Except.  Dictionaries iterated in insertion order are modelled as
association lists in the source's insertion order.
-/

namespace MinoruPacking

/-- Product dataclass (src/src/data/products.py, lines 9-26):
size label, width/depth/height in cm, weight in kg. -/
structure Product where
  size : String
  width : ℚ
  depth : ℚ
  height : ℚ
  weight : ℚ
deriving DecidableEq, Repr

/-- `Product.volume` property: width·depth·height. -/
def Product.volume (p : Product) : ℚ := p.width * p.depth * p.height

/-- One entry of the `items` list built by `calculate_packing`
(packing_optimizer.py, lines 57-61): a dict `{'product': product, 'size': size}`. -/
structure ItemEntry where
  product : Product
  size : String
deriving DecidableEq, Repr

/-- PackedItem dataclass (packing_optimizer.py, lines 8-18): a placed product,
its minimum-corner coordinates and the oriented dimensions actually used. -/
structure PackedItem where
  product : Product
  x : ℚ
  y : ℚ
  z : ℚ
  width : ℚ
  depth : ℚ
  height : ℚ
  rotd : Bool
deriving DecidableEq, Repr

/-- TransportBox dataclass (src/src/data/boxes.py, lines 9-16). -/
structure TransportBox where
  number : String
  width : ℚ
  depth : ℚ
  height : ℚ
  max_weight : ℚ
deriving DecidableEq, Repr

/-- `TransportBox.volume` property (boxes.py, lines 18-21). -/
def TransportBox.volume (b : TransportBox) : ℚ := b.width * b.depth * b.height

/-- `TransportBox.inner_dimensions` property (boxes.py, lines 23-30):
2 cm wall allowance per axis, clamped at 0. -/
def TransportBox.inner_dimensions (b : TransportBox) : ℚ × ℚ × ℚ :=
  (max 0 (b.width - 2), max 0 (b.depth - 2), max 0 (b.height - 2))

/-- `TransportBox.inner_volume` property (boxes.py, lines 32-36). -/
def TransportBox.inner_volume (b : TransportBox) : ℚ :=
  (b.inner_dimensions).1 * (b.inner_dimensions).2.1 * (b.inner_dimensions).2.2

/-- `TransportBox.can_fit_weight` (boxes.py, lines 38-40). -/
def TransportBox.can_fit_weight (b : TransportBox) (weight : ℚ) : Bool :=
  decide (weight ≤ b.max_weight)

/-- `TransportBox.can_fit_volume` (boxes.py, lines 42-44). -/
def TransportBox.can_fit_volume (b : TransportBox) (volume : ℚ) : Bool :=
  decide (volume ≤ b.inner_volume)

/-- The `ProductMaster` catalog (products.py, lines 31-38), in insertion order. -/
def productList : List (String × Product) :=
  [("S", ⟨"S", 15.0, 10.0, 8.0, 0.5⟩),
   ("Sロング", ⟨"Sロング", 25.0, 10.0, 8.0, 0.7⟩),
   ("L", ⟨"L", 20.0, 15.0, 12.0, 1.2⟩),
   ("Lロング", ⟨"Lロング", 30.0, 15.0, 12.0, 1.5⟩),
   ("LL", ⟨"LL", 25.0, 20.0, 15.0, 2.0⟩)]

/-- `ProductMaster.get_product` (products.py, lines 40-42): dict lookup. -/
def get_product (size : String) : Option Product := productList.lookup size

/-- The `BoxMaster` catalog (boxes.py, lines 49-56), in insertion order. -/
def boxList : List TransportBox :=
  [⟨"No.1", 37.5, 37.0, 24.0, 10.0⟩,
   ⟨"No.2", 50.2, 40.2, 31.0, 15.0⟩,
   ⟨"No.5", 53.2, 40.2, 33.8, 20.0⟩,
   ⟨"No.6（100箱）", 50.2, 40.2, 50.8, 25.0⟩,
   ⟨"No.15", 57.5, 40.2, 34.0, 25.0⟩]

/-- `BoxMaster.find_suitable_boxes` (boxes.py, lines 70-80): keep the catalog
boxes that pass both capacity checks, then stable-sort ascending by (outer)
volume. -/
def find_suitable_boxes (required_volume required_weight : ℚ) : List TransportBox :=
  (boxList.filter (fun b =>
      b.can_fit_volume required_volume && b.can_fit_weight required_weight)).mergeSort
    (fun a b => decide (a.volume ≤ b.volume))

/-- A candidate insertion point of the bottom-left-fill packer: (x, y, z). -/
abbrev Pos := ℚ × ℚ × ℚ

/-- `SimplePacking._check_collision` (packing_optimizer.py, lines 188-197),
test for one already-placed item: the new box at (x,y,z) with dims (w,d,h)
collides with `item` unless they are separated along some axis. -/
def collides (item : PackedItem) (x y z w d h : ℚ) : Bool :=
  !(decide (x ≥ item.x + item.width) || decide (x + w ≤ item.x) ||
    decide (y ≥ item.y + item.depth) || decide (y + d ≤ item.y) ||
    decide (z ≥ item.z + item.height) || decide (z + h ≤ item.z))

/-- `SimplePacking._check_collision` over the whole placed list. -/
def checkCollision (packed : List PackedItem) (x y z w d h : ℚ) : Bool :=
  packed.any (fun item => collides item x y z w d h)

/-- The support-area accumulation inside `SimplePacking._check_stability`
(packing_optimizer.py, lines 223-235): sum of footprint overlaps with every
item whose top face is within 0.01 of height z. -/
def supportArea (packed : List PackedItem) (x y w d z : ℚ) : ℚ :=
  packed.foldl (fun acc item =>
    if |item.z + item.height - z| < 0.01 then
      acc + (max 0 (min (x + w) (item.x + item.width) - max x item.x)) *
            (max 0 (min (y + d) (item.y + item.depth) - max y item.y))
    else acc) 0

/-- `SimplePacking._calculate_weight_on_item` (packing_optimizer.py,
lines 272-290): the target's own weight plus, for every item strictly above
its top face (0.01 tolerance) with positively overlapping footprint, that
item's weight scaled by overlap area over the upper item's footprint area. -/
def calculateWeightOnItem (packed : List PackedItem) (target : PackedItem) : ℚ :=
  packed.foldl (fun acc item =>
    if item.z > target.z + target.height - 0.01 then
      if max 0 (min (target.x + target.width) (item.x + item.width) - max target.x item.x) > 0 ∧
         max 0 (min (target.y + target.depth) (item.y + item.depth) - max target.y item.y) > 0 then
        acc + item.product.weight *
          ((max 0 (min (target.x + target.width) (item.x + item.width) - max target.x item.x) *
            max 0 (min (target.y + target.depth) (item.y + item.depth) - max target.y item.y)) /
            (item.width * item.depth))
      else acc
    else acc) target.product.weight

/-- `SimplePacking._check_weight_distribution` (packing_optimizer.py,
lines 245-270): for every item directly below the new one, the weight
already on it plus the new item's distributed share must stay ≤ 50 kg. -/
def checkWeightDistribution (packed : List PackedItem) (x y z w d new_weight : ℚ) : Bool :=
  packed.all (fun item =>
    if |item.z + item.height - z| < 0.01 then
      let ox := max 0 (min (x + w) (item.x + item.width) - max x item.x)
      let oy := max 0 (min (y + d) (item.y + item.depth) - max y item.y)
      if ox > 0 ∧ oy > 0 then
        decide (calculateWeightOnItem packed item + new_weight * ((ox * oy) / (w * d)) ≤ 50.0)
      else true
    else true)

/-- `SimplePacking._check_stability` (packing_optimizer.py, lines 216-243):
always stable at z = 0; otherwise requires the weight-distribution check and
a summed support area of at least 50% of the item's footprint. -/
def checkStability (packed : List PackedItem) (x y z w d h weight : ℚ) : Bool :=
  if z = 0 then true
  else
    let _ := h
    if checkWeightDistribution packed x y z w d weight = false then false
    else decide (supportArea packed x y w d z / (w * d) ≥ 0.5)

/-- Python's tuple comparison key `(z, y, x)` used to keep the frontier
sorted (packing_optimizer.py, line 214): lexicographic ≤. -/
def posLeB (p q : Pos) : Bool :=
  decide (p.2.2 < q.2.2) ||
    (decide (p.2.2 = q.2.2) &&
      (decide (p.2.1 < q.2.1) || (decide (p.2.1 = q.2.1) && decide (p.1 ≤ q.1))))

/-- `SimplePacking._add_new_positions` (packing_optimizer.py, lines 199-214):
append the three successor points when absent, then sort by (z, y, x). -/
def addNewPositions (positions : List Pos) (x y z w d h : ℚ) : List Pos :=
  let l1 := if (x + w, y, z) ∈ positions then positions else positions ++ [(x + w, y, z)]
  let l2 := if (x, y + d, z) ∈ l1 then l1 else l1 ++ [(x, y + d, z)]
  let l3 := if (x, y, z + h) ∈ l2 then l2 else l2 ++ [(x, y, z + h)]
  l3.mergeSort posLeB

/-- Acceptance test for one candidate point (packing_optimizer.py,
lines 154-163): bounds, then collision, then stability. -/
def accept (packed : List PackedItem) (bw bd bh w d h weight : ℚ) (p : Pos) : Bool :=
  decide (p.1 + w ≤ bw) && decide (p.2.1 + d ≤ bd) && decide (p.2.2 + h ≤ bh) &&
  !checkCollision packed p.1 p.2.1 p.2.2 w d h &&
  checkStability packed p.1 p.2.1 p.2.2 w d h weight

/-- Scan the frontier in order for the first accepted point; return it
together with the frontier with that point removed (`free_positions.pop`). -/
def findPos (ok : Pos → Bool) : List Pos → Option (Pos × List Pos)
  | [] => none
  | p :: ps =>
    if ok p then some (p, ps)
    else
      match findPos ok ps with
      | none => none
      | some (q, rest) => some (q, p :: rest)

/-- One item of the loop body of `SimplePacking._advanced_3d_packing`
(packing_optimizer.py, lines 139-184): try the native orientation on every
frontier point in order, then the 90°-rotated orientation; on the first
accepted point append the placed item and rebuild the frontier. -/
def placeItem (packed : List PackedItem) (bw bd bh : ℚ) (positions : List Pos)
    (product : Product) : Option (List PackedItem × List Pos) :=
  match findPos (accept packed bw bd bh product.width product.depth product.height product.weight) positions with
  | some (p, remaining) =>
    some (packed ++ [⟨product, p.1, p.2.1, p.2.2, product.width, product.depth, product.height, false⟩],
          addNewPositions remaining p.1 p.2.1 p.2.2 product.width product.depth product.height)
  | none =>
    match findPos (accept packed bw bd bh product.depth product.width product.height product.weight) positions with
    | some (p, remaining) =>
      some (packed ++ [⟨product, p.1, p.2.1, p.2.2, product.depth, product.width, product.height, true⟩],
            addNewPositions remaining p.1 p.2.1 p.2.2 product.depth product.width product.height)
    | none => none

/-- The item loop of `_advanced_3d_packing`: place each item in turn; if one
cannot be placed the whole attempt returns the empty list (line 184). -/
def packLoop (bw bd bh : ℚ) : List ItemEntry → List PackedItem → List Pos → List PackedItem
  | [], packed, _ => packed
  | it :: rest, packed, positions =>
    match placeItem packed bw bd bh positions it.product with
    | none => []
    | some (np, nps) => packLoop bw bd bh rest np nps

/-- `SimplePacking._advanced_3d_packing` (packing_optimizer.py,
lines 129-186): sort items by descending volume (stable) and run the
bottom-left-fill loop from the origin frontier. -/
def advanced3dPacking (items : List ItemEntry) (bw bd bh : ℚ) : List PackedItem :=
  packLoop bw bd bh
    (items.mergeSort (fun a b => decide (b.product.volume ≤ a.product.volume)))
    [] [(0, 0, 0)]

/-- `max((item.z + item.height) for item in packed)` with the `if packed else 0`
guard (packing_optimizer.py, line 115). -/
def maxHeightUsed : List PackedItem → ℚ
  | [] => 0
  | i :: rest => rest.foldl (fun acc j => max acc (j.z + j.height)) (i.z + i.height)

/-- PackingResult dataclass (packing_optimizer.py, lines 21-31). -/
structure PackingResult where
  box : TransportBox
  items : List ItemEntry
  packed_items : List PackedItem
  total_weight : ℚ
  total_volume : ℚ
  utilization_rate : ℚ
  is_feasible : Bool
  packing_efficiency : ℚ
deriving DecidableEq, Repr

/-- `SimplePacking._try_pack_items` (packing_optimizer.py, lines 86-127):
weight check, inner-volume check, 3D placement, then metrics.  A falsy
(empty) placement list means failure (`None`). -/
def tryPackItems (box : TransportBox) (items : List ItemEntry)
    (total_weight total_volume : ℚ) : Option PackingResult :=
  if box.can_fit_weight total_weight = false then none
  else
    let bw := (box.inner_dimensions).1
    let bd := (box.inner_dimensions).2.1
    let bh := (box.inner_dimensions).2.2
    let usable_volume := bw * bd * bh
    if total_volume > usable_volume then none
    else
      let packed := advanced3dPacking items bw bd bh
      if packed = [] then none
      else
        let actual_volume := (packed.map (fun i => i.width * i.depth * i.height)).sum
        let utilization := actual_volume / usable_volume * 100
        let max_height_used := maxHeightUsed packed
        let efficiency :=
          if max_height_used > 0 then actual_volume / (bw * bd * max_height_used) * 100 else 0
        some ⟨box, items, packed, total_weight, actual_volume, utilization, true, efficiency⟩

/-- The first maximum of `max(results, key=lambda x: x.packing_efficiency)`
(packing_optimizer.py, line 327). -/
def maxByEfficiency : List PackingResult → Option PackingResult
  | [] => none
  | x :: xs =>
    some (xs.foldl (fun best r =>
      if best.packing_efficiency < r.packing_efficiency then r else best) x)

/-- `SimplePacking.get_packing_recommendation` (packing_optimizer.py,
lines 311-327): first result with efficiency ≥ 60, else first with
utilization ≥ 50, else the most efficient; `None` on an empty list. -/
def get_packing_recommendation (results : List PackingResult) : Option PackingResult :=
  if results = [] then none
  else
    match results.find? (fun r => decide (r.packing_efficiency ≥ 60)) with
    | some r => some r
    | none =>
      match results.find? (fun r => decide (r.utilization_rate ≥ 50)) with
      | some r => some r
      | none => maxByEfficiency results

/-! ## Multi-carrier option ranker (src/src/advanced/multi_carrier.py, src/src/data/rates.py) -/

/-- CarrierService dataclass (multi_carrier.py, lines 10-18). -/
structure CarrierService where
  carrier : String
  service_name : String
  delivery_time : String
  tracking : Bool
  insurance : Bool
  special_features : List String
deriving DecidableEq, Repr

/-- ShippingRate dataclass (src/src/data/rates.py, lines 5-14): four required
fields. -/
structure ShippingRate where
  carrier : String
  size_code : String
  box_number : String
  rate : ℤ
deriving DecidableEq, Repr

/-- The `RateMaster` rate table (rates.py, lines 21-69), in source order. -/
def ratesList : List ShippingRate :=
  [⟨"ヤマト運輸", "60", "60サイズS 12入", 850⟩,
   ⟨"ヤマト運輸", "60", "L4入り", 850⟩,
   ⟨"ヤマト運輸", "60", "60サイズLL2入", 850⟩,
   ⟨"ヤマト運輸", "80", "80サイズ", 1050⟩,
   ⟨"ヤマト運輸", "100", "LL12入", 1300⟩,
   ⟨"ヤマト運輸", "100", "No.1", 1300⟩,
   ⟨"ヤマト運輸", "120", "No.14", 1500⟩,
   ⟨"ヤマト運輸", "120", "No.10", 1500⟩,
   ⟨"ヤマト運輸", "120", "No.16", 1500⟩,
   ⟨"ヤマト運輸", "130", "No.2", 1700⟩,
   ⟨"ヤマト運輸", "130", "No.5", 1700⟩,
   ⟨"ヤマト運輸", "130", "No.15", 1700⟩,
   ⟨"ヤマト運輸", "140", "12号", 1950⟩,
   ⟨"ヤマト運輸", "140", "No.6", 1950⟩,
   ⟨"佐川急便", "60", "60サイズS 12入", 800⟩,
   ⟨"佐川急便", "60", "L4入り", 800⟩,
   ⟨"佐川急便", "60", "60サイズLL2入", 800⟩,
   ⟨"佐川急便", "80", "80サイズ", 1000⟩,
   ⟨"佐川急便", "100", "LL12入", 1250⟩,
   ⟨"佐川急便", "100", "No.1", 1250⟩,
   ⟨"佐川急便", "120", "No.14", 1450⟩,
   ⟨"佐川急便", "120", "No.10", 1450⟩,
   ⟨"佐川急便", "120", "No.16", 1450⟩,
   ⟨"佐川急便", "130", "No.2", 1650⟩,
   ⟨"佐川急便", "130", "No.5", 1650⟩,
   ⟨"佐川急便", "130", "No.15", 1650⟩,
   ⟨"佐川急便", "140", "12号", 1900⟩,
   ⟨"佐川急便", "140", "No.6", 1900⟩,
   ⟨"日本郵便", "60", "60サイズS 12入", 810⟩,
   ⟨"日本郵便", "60", "L4入り", 810⟩,
   ⟨"日本郵便", "60", "60サイズLL2入", 810⟩,
   ⟨"日本郵便", "80", "80サイズ", 1020⟩,
   ⟨"日本郵便", "100", "LL12入", 1270⟩,
   ⟨"日本郵便", "100", "No.1", 1270⟩,
   ⟨"日本郵便", "120", "No.14", 1470⟩,
   ⟨"日本郵便", "120", "No.10", 1470⟩,
   ⟨"日本郵便", "120", "No.16", 1470⟩,
   ⟨"日本郵便", "130", "No.2", 1670⟩,
   ⟨"日本郵便", "130", "No.5", 1670⟩,
   ⟨"日本郵便", "130", "No.15", 1670⟩,
   ⟨"日本郵便", "140", "12号", 1920⟩,
   ⟨"日本郵便", "140", "No.6", 1920⟩]

/-- `MultiCarrierManager._initialize_services` (multi_carrier.py, lines 41-114),
a dict keyed by carrier in insertion order. -/
def servicesTable : List (String × List CarrierService) :=
  [("ヤマト運輸",
    [⟨"ヤマト運輸", "宅急便", "翌日-翌々日", true, true, ["時間指定", "再配達無料", "コンビニ受取"]⟩,
     ⟨"ヤマト運輸", "ネコポス", "翌日-翌々日", true, false, ["ポスト投函", "薄型専用"]⟩,
     ⟨"ヤマト運輸", "宅急便コンパクト", "翌日-翌々日", true, true, ["専用BOX", "コンパクト"]⟩]),
   ("佐川急便",
    [⟨"佐川急便", "飛脚宅配便", "翌日-翌々日", true, true, ["時間指定", "営業所留め"]⟩,
     ⟨"佐川急便", "飛脚メール便", "2-4日", true, false, ["ポスト投函", "安価"]⟩]),
   ("日本郵便",
    [⟨"日本郵便", "ゆうパック", "翌日-翌々日", true, true, ["郵便局受取", "コンビニ受取", "着払い可"]⟩,
     ⟨"日本郵便", "クリックポスト", "翌日-翌々日", true, false, ["全国一律料金", "ポスト投函"]⟩,
     ⟨"日本郵便", "レターパック", "翌日", true, false, ["対面配達", "全国一律料金"]⟩])]

/-- `MultiCarrierManager._initialize_special_rates` (multi_carrier.py,
lines 116-123). -/
def specialRates : List (String × List (String × ℤ)) :=
  [("time_designation", [("ヤマト運輸", 0), ("佐川急便", 0), ("日本郵便", 0)]),
   ("cash_on_delivery", [("ヤマト運輸", 330), ("佐川急便", 330), ("日本郵便", 260)]),
   ("insurance_extra", [("ヤマト運輸", 0), ("佐川急便", 0), ("日本郵便", 0)]),
   ("express_delivery", [("ヤマト運輸", 220), ("佐川急便", 220), ("日本郵便", 320)])]

/-- Does `sub` start the character list? (helper for Python's `in` on strings). -/
def strStartsWith : List Char → List Char → Bool
  | _, [] => true
  | [], _ :: _ => false
  | a :: as, b :: bs => a == b && strStartsWith as bs

/-- Does `sub` occur as a contiguous run of `l`? -/
def strFindSeq (sub : List Char) : List Char → Bool
  | [] => sub.isEmpty
  | c :: rest => strStartsWith (c :: rest) sub || strFindSeq sub rest

/-- Python's substring test `sub in s`. -/
def pyStrIn (sub s : String) : Bool := strFindSeq sub.data s.data

/-- Python exceptions that the embedded ranker can raise. -/
inductive PyErr where
  | attributeError
  | typeError
deriving DecidableEq, Repr

/-- Modelled from the spec: `multi_carrier.py` imports `RatesMaster` from
`src.data.rates` and calls `rate_master.get_rates_by_carrier(carrier)`
(line 138), but the source tree's `src/src/data/rates.py` only defines
`RateMaster`, which has no such method — the provider class is missing from
the source.  Per spec §6 the Rate Table is an in-memory provider that can
enumerate its entries per carrier, so this returns the rate-table entries
whose carrier matches. -/
def get_rates_by_carrier (carrier : String) : List ShippingRate :=
  ratesList.filter (fun r => r.carrier == carrier)

/-- multi_carrier.py line 139:
`next((r for r in rates_for_carrier if r.box_size == result.box.number), None)`.
The `ShippingRate` dataclass (src/src/data/rates.py, lines 5-14) has no
`box_size` attribute, so evaluating the generator's predicate on a first
element raises AttributeError; on an empty list `next` returns the `None`
default without ever evaluating the predicate. -/
def findRateByBoxSize (rates : List ShippingRate) (boxNumber : String) :
    Except PyErr (Option ShippingRate) :=
  let _ := boxNumber
  match rates with
  | [] => .ok none
  | _ :: _ => .error .attributeError

/-- `MultiCarrierManager._create_default_rate` (multi_carrier.py, lines
264-277) evaluates `ShippingRate(carrier=..., size=box_number, rate=...)`,
but the `ShippingRate` dataclass (src/src/data/rates.py) has no `size`
keyword and requires `size_code` and `box_number`, so the constructor call
raises TypeError. -/
def createDefaultRate (carrier boxNumber : String) : Except PyErr ShippingRate :=
  let _ := carrier
  let _ := boxNumber
  .error .typeError

/-- EnhancedShippingOption dataclass (multi_carrier.py, lines 21-30); the
estimated delivery date is kept as days-since-epoch (formatting omitted). -/
structure EnhancedShippingOption where
  packing_result : PackingResult
  shipping_rate : ShippingRate
  service : CarrierService
  estimated_delivery : ℤ
  total_cost : ℤ
  savings : ℤ
  recommendation_score : ℚ
deriving DecidableEq, Repr

/-- `MultiCarrierManager._is_service_applicable` (multi_carrier.py,
lines 185-195). -/
def isServiceApplicable (service : CarrierService) (result : PackingResult) : Bool :=
  if service.service_name = "ネコポス" ∨ service.service_name = "クリックポスト" then
    decide (result.box.height ≤ 3.0)
  else if service.service_name = "宅急便コンパクト" then
    decide (result.box.number = "B-60" ∨ result.box.number = "B-80")
  else true

/-- `MultiCarrierManager._calculate_option_costs` (multi_carrier.py,
lines 197-205): sum the per-carrier surcharge of every enabled option that
exists in the special-rate table, with missing carrier entries counting 0. -/
def calculateOptionCosts (carrier : String) (options : List (String × Bool)) : ℤ :=
  options.foldl (fun acc opt =>
    if opt.2 && (specialRates.lookup opt.1).isSome then
      acc + (((specialRates.lookup opt.1).getD []).lookup carrier).getD 0
    else acc) 0

/-- `MultiCarrierManager._calculate_delivery_date` (multi_carrier.py,
lines 207-221) minus formatting: the day offset added to today's date. -/
def deliveryDateOffset (service : CarrierService) : ℤ :=
  if pyStrIn "翌日" service.delivery_time then 1
  else if pyStrIn "翌々日" service.delivery_time then 2
  else if pyStrIn "2-4日" service.delivery_time then 3
  else 2

/-- The per-(result, carrier) body of the inner `try` in
`get_enhanced_shipping_options` (multi_carrier.py, lines 137-166): look up
the carrier's rates, find the one matching the box (AttributeError, see
`findRateByBoxSize`), fall back to `_create_default_rate` when none is
found (TypeError), then build one option per applicable service. -/
def processResultCarrier (today : ℤ) (result : PackingResult) (carrier : String)
    (services : List CarrierService) (options : List (String × Bool)) :
    Except PyErr (List EnhancedShippingOption) := do
  let rates := get_rates_by_carrier carrier
  let rate? ← findRateByBoxSize rates result.box.number
  let rate ← match rate? with
    | some r => pure r
    | none => createDefaultRate carrier result.box.number
  pure (services.filterMap (fun service =>
    if isServiceApplicable service result then
      some { packing_result := result
             shipping_rate := rate
             service := service
             estimated_delivery := today + deliveryDateOffset service
             total_cost := rate.rate + calculateOptionCosts carrier options
             savings := 0
             recommendation_score := 0 }
    else none))

/-- The double loop inside the outer `try` of `get_enhanced_shipping_options`
(multi_carrier.py, lines 133-166); the inner `except Exception: continue`
keeps the accumulator and moves to the next carrier. -/
def getEnhancedShippingOptionsE (today : ℤ) (packing_results : List PackingResult)
    (options : List (String × Bool)) : Except PyErr (List EnhancedShippingOption) :=
  packing_results.foldlM (fun acc result =>
    servicesTable.foldlM (fun acc2 entry =>
      match processResultCarrier today result entry.1 entry.2 options with
      | .error _ => pure acc2
      | .ok os => pure (acc2 ++ os)) acc) []

/-- The delivery-speed sub-score inside
`MultiCarrierManager._calculate_recommendation_scores` (multi_carrier.py,
lines 240-246): Python substring tests on the delivery-time label. -/
def speedScore (delivery_time : String) : ℚ :=
  if pyStrIn "翌日" delivery_time then 1.0
  else if pyStrIn "翌々日" delivery_time then 0.8
  else 0.6

/-- The raw (uncapped) service-quality sub-score (multi_carrier.py,
lines 249-255). -/
def qualityScoreRaw (s : CarrierService) : ℚ :=
  (if s.tracking then 0.3 else 0) + (if s.insurance then 0.3 else 0) +
    (s.special_features.length : ℚ) * 0.1

/-- The loop body of `_calculate_recommendation_scores` (multi_carrier.py,
lines 233-262) for one option, given the min and max total cost over all
options. -/
def recommendationScore (minCost maxCost : ℤ) (opt : EnhancedShippingOption) : ℚ :=
  let costRange : ℤ := if maxCost > minCost then maxCost - minCost else 1
  let costScore : ℚ := 1.0 - ((opt.total_cost - minCost : ℤ) : ℚ) / (costRange : ℚ)
  costScore * 0.4 + speedScore opt.service.delivery_time * 0.3 +
    min (qualityScoreRaw opt.service) 1.0 * 0.2 +
    min (opt.packing_result.utilization_rate / 100.0) 1.0 * 0.1

/-- `MultiCarrierManager._calculate_recommendation_scores` (multi_carrier.py,
lines 223-262): no-op on an empty list, otherwise stamp every option with
its score. -/
def calculateRecommendationScores (options : List EnhancedShippingOption) :
    List EnhancedShippingOption :=
  match options with
  | [] => []
  | o :: os =>
    let mn := os.foldl (fun (m : ℤ) (x : EnhancedShippingOption) => min m x.total_cost) o.total_cost
    let mx := os.foldl (fun (m : ℤ) (x : EnhancedShippingOption) => max m x.total_cost) o.total_cost
    (o :: os).map (fun opt =>
      { opt with recommendation_score := recommendationScore mn mx opt })

/-- Python's sort key `(-recommendation_score, total_cost)` (multi_carrier.py,
line 181), as a ≤ test. -/
def optionLeB (a b : EnhancedShippingOption) : Bool :=
  decide (b.recommendation_score < a.recommendation_score) ||
    (decide (a.recommendation_score = b.recommendation_score) &&
      decide (a.total_cost ≤ b.total_cost))

/-- Lines 171-183 of `get_enhanced_shipping_options`: score, compute
savings against the cheapest option, and stable-sort by
(descending score, ascending cost). -/
def rankOptions (collected : List EnhancedShippingOption) : List EnhancedShippingOption :=
  let scored := calculateRecommendationScores collected
  let withSavings :=
    match scored with
    | [] => scored
    | s :: ss =>
      let mn := ss.foldl (fun (m : ℤ) (x : EnhancedShippingOption) => min m x.total_cost) s.total_cost
      scored.map (fun (o : EnhancedShippingOption) => { o with savings := o.total_cost - mn })
  withSavings.mergeSort optionLeB

/-- `MultiCarrierManager.get_enhanced_shipping_options` (multi_carrier.py,
lines 125-183): the outer `except Exception: return []` handler around the
double loop, then scoring, savings and sorting. -/
def getEnhancedShippingOptions (today : ℤ) (packing_results : List PackingResult)
    (options : List (String × Bool)) : List EnhancedShippingOption :=
  match getEnhancedShippingOptionsE today packing_results options with
  | .error _ => []
  | .ok collected => rankOptions collected

/-! ## Geometry predicates used by the specification claims -/

/-- Two placed items are separated along some axis (their open boxes are
disjoint; touching faces count as separated). -/
def separated (a b : PackedItem) : Prop :=
  a.x + a.width ≤ b.x ∨ b.x + b.width ≤ a.x ∨
  a.y + a.depth ≤ b.y ∨ b.y + b.depth ≤ a.y ∨
  a.z + a.height ≤ b.z ∨ b.z + b.height ≤ a.z

/-- Length of the intersection of the intervals [a₁, a₁+l₁] and [a₂, a₂+l₂],
clamped at 0. -/
def overlapLen (a₁ l₁ a₂ l₂ : ℚ) : ℚ := max 0 (min (a₁ + l₁) (a₂ + l₂) - max a₁ a₂)

/-- Volume of the intersection of two placed items' axis-aligned boxes. -/
def interVolume (a b : PackedItem) : ℚ :=
  overlapLen a.x a.width b.x b.width * overlapLen a.y a.depth b.y b.depth *
    overlapLen a.z a.height b.z b.height

/-- Containment of a placed item in the inner box `[0,bw]×[0,bd]×[0,bh]`. -/
def inBounds (bw bd bh : ℚ) (it : PackedItem) : Prop :=
  0 ≤ it.x ∧ it.x + it.width ≤ bw ∧ 0 ≤ it.y ∧ it.y + it.depth ≤ bd ∧
  0 ≤ it.z ∧ it.z + it.height ≤ bh

/-- Sanity bounds on the dimensions and weight of a catalog product; every
catalog product has dimensions ≥ 8 cm and weight ≥ 0.5 kg, so this holds of
every request the system can build. -/
def prodOK (p : Product) : Prop :=
  1/100 ≤ p.width ∧ 1/100 ≤ p.depth ∧ 1/100 ≤ p.height ∧ 0 ≤ p.weight

/-- The same bounds for a placed item (its dimensions are an axis permutation
of its product's dimensions). -/
def itemOK (it : PackedItem) : Prop :=
  1/100 ≤ it.width ∧ 1/100 ≤ it.depth ∧ 1/100 ≤ it.height ∧ 0 ≤ it.product.weight

/-- The stability fact recorded when an item was placed: unless it sits on
the floor, the support area collected over the items placed before it covers
at least half of its footprint (in the source's divided form). -/
def stableFact (pre : List PackedItem) (it : PackedItem) : Prop :=
  it.z ≠ 0 → supportArea pre it.x it.y it.width it.depth it.z / (it.width * it.depth) ≥ 0.5

/-- Everything the claims need to know about a finished placement list. -/
def ResultOK (bw bd bh : ℚ) (l : List PackedItem) : Prop :=
  l.Pairwise separated ∧ (∀ it ∈ l, inBounds bw bd bh it) ∧ (∀ it ∈ l, itemOK it) ∧
  ∀ (n : ℕ) (hn : n < l.length), stableFact (l.take n) (l.get ⟨n, hn⟩)

/-- The loop invariant of the bottom-left-fill packer. -/
def LoopInv (bw bd bh : ℚ) (packed : List PackedItem) (positions : List Pos) : Prop :=
  (∀ p ∈ positions, 0 ≤ p.1 ∧ 0 ≤ p.2.1 ∧ 0 ≤ p.2.2) ∧ ResultOK bw bd bh packed

/-! ## Basic extraction lemmas -/

theorem resultOK_nil (bw bd bh : ℚ) : ResultOK bw bd bh [] := by
  refine ⟨List.Pairwise.nil, ?_, ?_, ?_⟩ <;> simp

theorem findPos_eq_some {ok : Pos → Bool} :
    ∀ {l : List Pos} {p : Pos} {rest : List Pos},
      findPos ok l = some (p, rest) →
      ok p = true ∧ p ∈ l ∧ ∀ q ∈ rest, q ∈ l := by
  intro l
  induction l with
  | nil => intro p rest h; simp [findPos] at h
  | cons q qs ih =>
    intro p rest h
    rw [findPos] at h
    by_cases hq : ok q
    · rw [if_pos hq] at h
      have h' := Option.some.inj h
      have h1 : q = p := congrArg Prod.fst h'
      have h2 : qs = rest := congrArg Prod.snd h'
      subst h1; subst h2
      exact ⟨hq, List.mem_cons_self _ _, fun r hr => List.mem_cons_of_mem _ hr⟩
    · rw [if_neg hq] at h
      cases hrec : findPos ok qs with
      | none => rw [hrec] at h; cases h
      | some pr =>
        obtain ⟨p', rest'⟩ := pr
        rw [hrec] at h
        have h' := Option.some.inj h
        have h1 : p' = p := congrArg Prod.fst h'
        have h2 : q :: rest' = rest := congrArg Prod.snd h'
        subst h1; subst h2
        obtain ⟨hok, hmem, hsub⟩ := ih hrec
        refine ⟨hok, List.mem_cons_of_mem _ hmem, ?_⟩
        intro r hr
        rcases List.mem_cons.mp hr with h | h
        · subst h; exact List.mem_cons_self _ _
        · exact List.mem_cons_of_mem _ (hsub r h)

theorem accept_eq_true {packed : List PackedItem} {bw bd bh w d h wt : ℚ} {p : Pos}
    (hacc : accept packed bw bd bh w d h wt p = true) :
    p.1 + w ≤ bw ∧ p.2.1 + d ≤ bd ∧ p.2.2 + h ≤ bh ∧
    checkCollision packed p.1 p.2.1 p.2.2 w d h = false ∧
    checkStability packed p.1 p.2.1 p.2.2 w d h wt = true := by
  simp only [accept, Bool.and_eq_true, decide_eq_true_eq, Bool.not_eq_true'] at hacc
  exact ⟨hacc.1.1.1.1, hacc.1.1.1.2, hacc.1.1.2, hacc.1.2, hacc.2⟩

theorem separated_of_checkCollision_eq_false {packed : List PackedItem}
    {x y z w d h : ℚ} (hc : checkCollision packed x y z w d h = false) :
    ∀ it ∈ packed, ∀ (pr : Product) (rb : Bool),
      separated it ⟨pr, x, y, z, w, d, h, rb⟩ := by
  intro it hit pr rb
  have hcol : collides it x y z w d h = false :=
    Bool.eq_false_iff.mpr ((List.any_eq_false.mp hc) it hit)
  rw [collides, Bool.not_eq_false'] at hcol
  simp only [Bool.or_eq_true] at hcol
  simp only [separated]
  rcases hcol with ((((h1 | h1) | h1) | h1) | h1) | h1
  · exact Or.inl (of_decide_eq_true h1)
  · exact Or.inr (Or.inl (of_decide_eq_true h1))
  · exact Or.inr (Or.inr (Or.inl (of_decide_eq_true h1)))
  · exact Or.inr (Or.inr (Or.inr (Or.inl (of_decide_eq_true h1))))
  · exact Or.inr (Or.inr (Or.inr (Or.inr (Or.inl (of_decide_eq_true h1)))))
  · exact Or.inr (Or.inr (Or.inr (Or.inr (Or.inr (of_decide_eq_true h1)))))

theorem checkStability_support {packed : List PackedItem} {x y z w d h wt : ℚ}
    (hs : checkStability packed x y z w d h wt = true) (hz : z ≠ 0) :
    supportArea packed x y w d z / (w * d) ≥ 0.5 := by
  rw [checkStability, if_neg hz] at hs
  by_cases hw : checkWeightDistribution packed x y z w d wt = false
  · rw [if_pos hw] at hs; cases hs
  · rw [if_neg hw] at hs; exact of_decide_eq_true hs

theorem interVolume_eq_zero_of_separated {a b : PackedItem} (h : separated a b) :
    interVolume a b = 0 := by
  have base : ∀ a₁ l₁ a₂ l₂ : ℚ, a₁ + l₁ ≤ a₂ → overlapLen a₁ l₁ a₂ l₂ = 0 := by
    intro a₁ l₁ a₂ l₂ hle
    apply max_eq_left
    have h1 : min (a₁ + l₁) (a₂ + l₂) ≤ a₁ + l₁ := min_le_left _ _
    have h2 : a₂ ≤ max a₁ a₂ := le_max_right _ _
    linarith
  have comm : ∀ a₁ l₁ a₂ l₂ : ℚ, overlapLen a₁ l₁ a₂ l₂ = overlapLen a₂ l₂ a₁ l₁ := by
    intro a₁ l₁ a₂ l₂
    simp only [overlapLen, min_comm (a₁ + l₁), max_comm a₁]
  rcases h with h | h | h | h | h | h
  · simp [interVolume, base _ _ _ _ h]
  · simp [interVolume, comm a.x a.width, base _ _ _ _ h]
  · simp [interVolume, base _ _ _ _ h]
  · simp [interVolume, comm a.y a.depth, base _ _ _ _ h]
  · simp [interVolume, base _ _ _ _ h]
  · simp [interVolume, comm a.z a.height, base _ _ _ _ h]

theorem mem_addNewPositions {rem : List Pos} {x y z w d h : ℚ} {q : Pos}
    (hq : q ∈ addNewPositions rem x y z w d h) :
    q ∈ rem ∨ q = (x + w, y, z) ∨ q = (x, y + d, z) ∨ q = (x, y, z + h) := by
  have step : ∀ (l : List Pos) (a b : Pos), b ∈ (if a ∈ l then l else l ++ [a]) →
      b ∈ l ∨ b = a := by
    intro l a b hb
    by_cases hal : a ∈ l
    · rw [if_pos hal] at hb; exact Or.inl hb
    · rw [if_neg hal] at hb
      rcases List.mem_append.mp hb with h' | h'
      · exact Or.inl h'
      · exact Or.inr (List.mem_singleton.mp h')
  simp only [addNewPositions, List.mem_mergeSort] at hq
  rcases step _ _ _ hq with hq2 | hq2
  · rcases step _ _ _ hq2 with hq3 | hq3
    · rcases step _ _ _ hq3 with hq4 | hq4
      · exact Or.inl hq4
      · exact Or.inr (Or.inl hq4)
    · exact Or.inr (Or.inr (Or.inl hq3))
  · exact Or.inr (Or.inr (Or.inr hq2))

/-! ## Sum decompositions of the accumulating loops -/

theorem foldl_add_pointwise {α : Type} (g : ℚ → α → ℚ) (f : α → ℚ)
    (hg : ∀ a it, g a it = a + f it) :
    ∀ (l : List α) (a : ℚ), l.foldl g a = a + (l.map f).sum := by
  intro l
  induction l with
  | nil => intro a; simp
  | cons x xs ih =>
    intro a
    simp only [List.foldl_cons, List.map_cons, List.sum_cons, hg]
    rw [ih]
    ring

/-- One summand of `supportArea`. -/
def supportTerm (x y w d z : ℚ) (item : PackedItem) : ℚ :=
  if |item.z + item.height - z| < 0.01 then
    (max 0 (min (x + w) (item.x + item.width) - max x item.x)) *
    (max 0 (min (y + d) (item.y + item.depth) - max y item.y))
  else 0

theorem supportArea_eq_sum (packed : List PackedItem) (x y w d z : ℚ) :
    supportArea packed x y w d z = (packed.map (supportTerm x y w d z)).sum := by
  have hg : ∀ (a : ℚ) (item : PackedItem),
      (if |item.z + item.height - z| < 0.01 then
        a + (max 0 (min (x + w) (item.x + item.width) - max x item.x)) *
            (max 0 (min (y + d) (item.y + item.depth) - max y item.y))
      else a) = a + supportTerm x y w d z item := by
    intro a item
    by_cases hc : |item.z + item.height - z| < (0.01 : ℚ)
    · rw [if_pos hc, supportTerm, if_pos hc]
    · rw [if_neg hc, supportTerm, if_neg hc, add_zero]
  rw [supportArea, foldl_add_pointwise _ _ hg, zero_add]

theorem supportTerm_nonneg (x y w d z : ℚ) (item : PackedItem) :
    0 ≤ supportTerm x y w d z item := by
  unfold supportTerm
  split
  · exact mul_nonneg (le_max_left _ _) (le_max_left _ _)
  · exact le_refl 0

theorem supportArea_append (l₁ l₂ : List PackedItem) (x y w d z : ℚ) :
    supportArea (l₁ ++ l₂) x y w d z = supportArea l₁ x y w d z + supportArea l₂ x y w d z := by
  simp [supportArea_eq_sum, List.map_append, List.sum_append]

theorem supportArea_nonneg (l : List PackedItem) (x y w d z : ℚ) :
    0 ≤ supportArea l x y w d z := by
  rw [supportArea_eq_sum]
  apply List.sum_nonneg
  intro q hq
  obtain ⟨item, _, rfl⟩ := List.mem_map.mp hq
  exact supportTerm_nonneg _ _ _ _ _ _

/-- One summand of `calculateWeightOnItem`. -/
def weightTerm (target item : PackedItem) : ℚ :=
  if item.z > target.z + target.height - 0.01 then
    if max 0 (min (target.x + target.width) (item.x + item.width) - max target.x item.x) > 0 ∧
       max 0 (min (target.y + target.depth) (item.y + item.depth) - max target.y item.y) > 0 then
      item.product.weight *
        ((max 0 (min (target.x + target.width) (item.x + item.width) - max target.x item.x) *
          max 0 (min (target.y + target.depth) (item.y + item.depth) - max target.y item.y)) /
          (item.width * item.depth))
    else 0
  else 0

theorem calculateWeightOnItem_eq_sum (packed : List PackedItem) (target : PackedItem) :
    calculateWeightOnItem packed target =
      target.product.weight + (packed.map (weightTerm target)).sum := by
  have hg : ∀ (a : ℚ) (item : PackedItem),
      (if item.z > target.z + target.height - 0.01 then
        if max 0 (min (target.x + target.width) (item.x + item.width) - max target.x item.x) > 0 ∧
           max 0 (min (target.y + target.depth) (item.y + item.depth) - max target.y item.y) > 0 then
          a + item.product.weight *
            ((max 0 (min (target.x + target.width) (item.x + item.width) - max target.x item.x) *
              max 0 (min (target.y + target.depth) (item.y + item.depth) - max target.y item.y)) /
              (item.width * item.depth))
        else a
      else a) = a + weightTerm target item := by
    intro a item
    by_cases hz : item.z > target.z + target.height - (0.01 : ℚ)
    · rw [if_pos hz, weightTerm, if_pos hz]
      by_cases hxy : max 0 (min (target.x + target.width) (item.x + item.width) - max target.x item.x) > 0 ∧
          max 0 (min (target.y + target.depth) (item.y + item.depth) - max target.y item.y) > 0
      · rw [if_pos hxy, if_pos hxy]
      · rw [if_neg hxy, if_neg hxy, add_zero]
    · rw [if_neg hz, weightTerm, if_neg hz, add_zero]
  rw [calculateWeightOnItem, foldl_add_pointwise _ _ hg]

theorem weightTerm_le (target item : PackedItem) (hitem : itemOK item) :
    weightTerm target item ≤ item.product.weight := by
  obtain ⟨hw, hd, _, hwt⟩ := hitem
  have hwpos : (0 : ℚ) < item.width := lt_of_lt_of_le (by norm_num) hw
  have hdpos : (0 : ℚ) < item.depth := lt_of_lt_of_le (by norm_num) hd
  unfold weightTerm
  split
  · split
    · have hox : max 0 (min (target.x + target.width) (item.x + item.width) - max target.x item.x)
          ≤ item.width := by
        apply max_le (le_of_lt hwpos)
        have h1 : min (target.x + target.width) (item.x + item.width) ≤ item.x + item.width :=
          min_le_right _ _
        have h2 : item.x ≤ max target.x item.x := le_max_right _ _
        linarith
      have hoy : max 0 (min (target.y + target.depth) (item.y + item.depth) - max target.y item.y)
          ≤ item.depth := by
        apply max_le (le_of_lt hdpos)
        have h1 : min (target.y + target.depth) (item.y + item.depth) ≤ item.y + item.depth :=
          min_le_right _ _
        have h2 : item.y ≤ max target.y item.y := le_max_right _ _
        linarith
      have hfrac : (max 0 (min (target.x + target.width) (item.x + item.width) - max target.x item.x) *
          max 0 (min (target.y + target.depth) (item.y + item.depth) - max target.y item.y)) /
          (item.width * item.depth) ≤ 1 := by
        rw [div_le_one (mul_pos hwpos hdpos)]
        exact mul_le_mul hox hoy (le_max_left _ _) (le_of_lt hwpos)
      calc item.product.weight * _ ≤ item.product.weight * 1 :=
            mul_le_mul_of_nonneg_left hfrac hwt
        _ = item.product.weight := mul_one _
    · exact hwt
  · exact hwt

theorem weightTerm_self (target : PackedItem) (hh : 1/100 ≤ target.height) :
    weightTerm target target = 0 := by
  unfold weightTerm
  rw [if_neg]
  intro hcon
  have : target.height < 0.01 := by linarith
  norm_num at this
  linarith

/-! ## Structure of one placement step and preservation of the invariant -/

theorem placeItem_eq_some {packed : List PackedItem} {bw bd bh : ℚ} {positions : List Pos}
    {product : Product} {np : List PackedItem} {nps : List Pos}
    (h : placeItem packed bw bd bh positions product = some (np, nps)) :
    ∃ (w d : ℚ) (rb : Bool) (p : Pos) (remaining : List Pos),
      (w = product.width ∧ d = product.depth ∧ rb = false ∨
       w = product.depth ∧ d = product.width ∧ rb = true) ∧
      findPos (accept packed bw bd bh w d product.height product.weight) positions =
        some (p, remaining) ∧
      np = packed ++ [⟨product, p.1, p.2.1, p.2.2, w, d, product.height, rb⟩] ∧
      nps = addNewPositions remaining p.1 p.2.1 p.2.2 w d product.height := by
  rw [placeItem] at h
  cases h1 : findPos (accept packed bw bd bh product.width product.depth product.height
      product.weight) positions with
  | some pr =>
    obtain ⟨p, remaining⟩ := pr
    rw [h1] at h
    have h' := Option.some.inj h
    exact ⟨product.width, product.depth, false, p, remaining, Or.inl ⟨rfl, rfl, rfl⟩, h1,
      (congrArg Prod.fst h').symm, (congrArg Prod.snd h').symm⟩
  | none =>
    rw [h1] at h
    cases h2 : findPos (accept packed bw bd bh product.depth product.width product.height
        product.weight) positions with
    | none => rw [h2] at h; cases h
    | some pr =>
      obtain ⟨p, remaining⟩ := pr
      rw [h2] at h
      have h' := Option.some.inj h
      exact ⟨product.depth, product.width, true, p, remaining, Or.inr ⟨rfl, rfl, rfl⟩, h2,
        (congrArg Prod.fst h').symm, (congrArg Prod.snd h').symm⟩

theorem step_LoopInv {bw bd bh : ℚ} {packed : List PackedItem} {positions : List Pos}
    {product : Product} {np : List PackedItem} {nps : List Pos}
    (hinv : LoopInv bw bd bh packed positions) (hp : prodOK product)
    (h : placeItem packed bw bd bh positions product = some (np, nps)) :
    LoopInv bw bd bh np nps := by
  obtain ⟨hpos, hsep, hinb, hok, hhist⟩ := hinv
  obtain ⟨w, d, rb, p, remaining, horient, hfind, hnp, hnps⟩ := placeItem_eq_some h
  obtain ⟨hacc, hpin, hremsub⟩ := findPos_eq_some hfind
  obtain ⟨hbw, hbd, hbh, hcoll, hstab⟩ := accept_eq_true hacc
  have hpnn := hpos p hpin
  have hwd : 1/100 ≤ w ∧ 1/100 ≤ d := by
    rcases horient with ⟨hw, hd, _⟩ | ⟨hw, hd, _⟩ <;> subst hw <;> subst hd
    · exact ⟨hp.1, hp.2.1⟩
    · exact ⟨hp.2.1, hp.1⟩
  have hwnn : (0 : ℚ) ≤ w := le_trans (by norm_num) hwd.1
  have hdnn : (0 : ℚ) ≤ d := le_trans (by norm_num) hwd.2
  have hhnn : (0 : ℚ) ≤ product.height := le_trans (by norm_num) hp.2.2.1
  constructor
  · -- positions of the new frontier are still nonnegative
    intro q hq
    rw [hnps] at hq
    rcases mem_addNewPositions hq with hq' | hq' | hq' | hq'
    · exact hpos q (hremsub q hq')
    · subst hq'; exact ⟨add_nonneg hpnn.1 hwnn, hpnn.2.1, hpnn.2.2⟩
    · subst hq'; exact ⟨hpnn.1, add_nonneg hpnn.2.1 hdnn, hpnn.2.2⟩
    · subst hq'; exact ⟨hpnn.1, hpnn.2.1, add_nonneg hpnn.2.2 hhnn⟩
  · subst hnp
    refine ⟨?_, ?_, ?_, ?_⟩
    · -- pairwise separation
      rw [List.pairwise_append]
      refine ⟨hsep, List.pairwise_singleton _ _, ?_⟩
      intro a ha b hb
      rw [List.mem_singleton] at hb; subst hb
      exact separated_of_checkCollision_eq_false hcoll a ha product rb
    · -- containment
      intro it hit
      rcases List.mem_append.mp hit with h' | h'
      · exact hinb it h'
      · rw [List.mem_singleton] at h'; subst h'
        exact ⟨hpnn.1, hbw, hpnn.2.1, hbd, hpnn.2.2, hbh⟩
    · -- dimension and weight sanity
      intro it hit
      rcases List.mem_append.mp hit with h' | h'
      · exact hok it h'
      · rw [List.mem_singleton] at h'; subst h'
        exact ⟨hwd.1, hwd.2, hp.2.2.1, hp.2.2.2⟩
    · -- the recorded stability facts
      intro n hn
      rw [List.length_append, List.length_singleton] at hn
      by_cases hlt : n < packed.length
      · have e1 : (packed ++ [(⟨product, p.1, p.2.1, p.2.2, w, d, product.height, rb⟩ :
            PackedItem)]).take n = packed.take n :=
          List.take_append_of_le_length (le_of_lt hlt)
        have e2 : (packed ++ [(⟨product, p.1, p.2.1, p.2.2, w, d, product.height, rb⟩ :
            PackedItem)]).get ⟨n, by simp; omega⟩ = packed.get ⟨n, hlt⟩ := by
          rw [List.get_eq_getElem, List.get_eq_getElem]
          exact List.getElem_append_left hlt
        rw [e1, e2]
        exact hhist n hlt
      · have hne : n = packed.length := by omega
        subst hne
        have e1 : (packed ++ [(⟨product, p.1, p.2.1, p.2.2, w, d, product.height, rb⟩ :
            PackedItem)]).take packed.length = packed := List.take_left packed _
        have e2 : (packed ++ [(⟨product, p.1, p.2.1, p.2.2, w, d, product.height, rb⟩ :
            PackedItem)]).get ⟨packed.length, by simp⟩ =
            ⟨product, p.1, p.2.1, p.2.2, w, d, product.height, rb⟩ := by
          rw [List.get_eq_getElem]
          exact List.getElem_concat_length packed _ _ rfl _
        rw [e1, e2]
        intro hz
        exact checkStability_support hstab hz

/-! ## The packing loop preserves the invariant -/

theorem packLoop_resultOK {bw bd bh : ℚ} :
    ∀ (itemlist : List ItemEntry) (packed : List PackedItem) (positions : List Pos),
      (∀ e ∈ itemlist, prodOK e.product) → LoopInv bw bd bh packed positions →
      ResultOK bw bd bh (packLoop bw bd bh itemlist packed positions) := by
  intro itemlist
  induction itemlist with
  | nil => intro packed positions _ hinv; exact hinv.2
  | cons it rest ih =>
    intro packed positions hall hinv
    rw [packLoop]
    cases hpl : placeItem packed bw bd bh positions it.product with
    | none => exact resultOK_nil bw bd bh
    | some pr =>
      obtain ⟨np, nps⟩ := pr
      exact ih np nps (fun e he => hall e (List.mem_cons_of_mem _ he))
        (step_LoopInv hinv (hall it (List.mem_cons_self _ _)) hpl)

theorem packLoop_pairwise {bw bd bh : ℚ} :
    ∀ (itemlist : List ItemEntry) (packed : List PackedItem) (positions : List Pos),
      packed.Pairwise separated →
      (packLoop bw bd bh itemlist packed positions).Pairwise separated := by
  intro itemlist
  induction itemlist with
  | nil => intro packed positions hsep; exact hsep
  | cons it rest ih =>
    intro packed positions hsep
    rw [packLoop]
    cases hpl : placeItem packed bw bd bh positions it.product with
    | none => exact List.Pairwise.nil
    | some pr =>
      obtain ⟨np, nps⟩ := pr
      apply ih
      obtain ⟨w, d, rb, p, remaining, horient, hfind, hnp, hnps⟩ := placeItem_eq_some hpl
      obtain ⟨hacc, _, _⟩ := findPos_eq_some hfind
      obtain ⟨_, _, _, hcoll, _⟩ := accept_eq_true hacc
      subst hnp
      rw [List.pairwise_append]
      refine ⟨hsep, List.pairwise_singleton _ _, ?_⟩
      intro a ha b hb
      rw [List.mem_singleton] at hb; subst hb
      exact separated_of_checkCollision_eq_false hcoll a ha it.product rb

theorem packLoop_map_product {bw bd bh : ℚ} :
    ∀ (itemlist : List ItemEntry) (packed : List PackedItem) (positions : List Pos),
      packLoop bw bd bh itemlist packed positions ≠ [] →
      (packLoop bw bd bh itemlist packed positions).map (fun it => it.product) =
        packed.map (fun it => it.product) ++ itemlist.map (fun e => e.product) := by
  intro itemlist
  induction itemlist with
  | nil => intro packed positions _; rw [packLoop]; simp
  | cons it rest ih =>
    intro packed positions hne
    rw [packLoop] at hne ⊢
    cases hpl : placeItem packed bw bd bh positions it.product with
    | none => rw [hpl] at hne; exact absurd rfl hne
    | some pr =>
      obtain ⟨np, nps⟩ := pr
      rw [hpl] at hne
      obtain ⟨w, d, rb, p, remaining, horient, hfind, hnp, hnps⟩ := placeItem_eq_some hpl
      have hne' : packLoop bw bd bh rest np nps ≠ [] := hne
      show (packLoop bw bd bh rest np nps).map (fun it => it.product) = _
      rw [ih np nps hne', hnp]
      simp [List.map_append]

/-! ## The two packer entry points -/

theorem advanced3dPacking_resultOK (items : List ItemEntry) (bw bd bh : ℚ)
    (hall : ∀ e ∈ items, prodOK e.product) :
    ResultOK bw bd bh (advanced3dPacking items bw bd bh) := by
  rw [advanced3dPacking]
  apply packLoop_resultOK
  · intro e he
    exact hall e (List.mem_mergeSort.mp he)
  · refine ⟨?_, resultOK_nil bw bd bh⟩
    intro p hp
    rw [List.mem_singleton] at hp
    subst hp
    exact ⟨le_refl 0, le_refl 0, le_refl 0⟩

theorem advanced3dPacking_pairwise (items : List ItemEntry) (bw bd bh : ℚ) :
    (advanced3dPacking items bw bd bh).Pairwise separated := by
  rw [advanced3dPacking]
  exact packLoop_pairwise _ _ _ List.Pairwise.nil

theorem advanced3dPacking_map_product (items : List ItemEntry) (bw bd bh : ℚ)
    (hne : advanced3dPacking items bw bd bh ≠ []) :
    ((advanced3dPacking items bw bd bh).map (fun it => it.product)).Perm
      (items.map (fun e => e.product)) := by
  rw [advanced3dPacking] at hne ⊢
  rw [packLoop_map_product _ _ _ hne]
  simp only [List.map_nil, List.nil_append]
  exact (List.mergeSort_perm items _).map (fun e => e.product)

theorem tryPackItems_eq_some {box : TransportBox} {items : List ItemEntry}
    {tw tv : ℚ} {r : PackingResult} (h : tryPackItems box items tw tv = some r) :
    tw ≤ box.max_weight ∧ r.box = box ∧ r.items = items ∧
    r.packed_items = advanced3dPacking items (box.inner_dimensions).1
      (box.inner_dimensions).2.1 (box.inner_dimensions).2.2 ∧
    r.packed_items ≠ [] ∧ r.total_weight = tw ∧
    r.total_volume = (r.packed_items.map (fun i => i.width * i.depth * i.height)).sum ∧
    r.utilization_rate = r.total_volume /
      ((box.inner_dimensions).1 * (box.inner_dimensions).2.1 * (box.inner_dimensions).2.2) * 100 ∧
    r.is_feasible = true := by
  rw [tryPackItems] at h
  by_cases hwt : box.can_fit_weight tw = false
  · rw [if_pos hwt] at h; cases h
  · rw [if_neg hwt] at h
    have htw : tw ≤ box.max_weight := by
      have hb : box.can_fit_weight tw = true := by
        revert hwt; cases box.can_fit_weight tw <;> simp
      rw [TransportBox.can_fit_weight] at hb
      exact of_decide_eq_true hb
    by_cases hv : tv > (box.inner_dimensions).1 * (box.inner_dimensions).2.1 *
        (box.inner_dimensions).2.2
    · rw [if_pos hv] at h; cases h
    · rw [if_neg hv] at h
      by_cases hemp : advanced3dPacking items (box.inner_dimensions).1
          (box.inner_dimensions).2.1 (box.inner_dimensions).2.2 = []
      · rw [if_pos hemp] at h; cases h
      · rw [if_neg hemp] at h
        have h' := Option.some.inj h
        subst h'
        exact ⟨htw, rfl, rfl, rfl, hemp, rfl, rfl, rfl, rfl⟩

instance (p : Product) : Decidable (prodOK p) :=
  decidable_of_iff (1/100 ≤ p.width ∧ 1/100 ≤ p.depth ∧ 1/100 ≤ p.height ∧ 0 ≤ p.weight) Iff.rfl

instance (it : PackedItem) : Decidable (itemOK it) :=
  decidable_of_iff (1/100 ≤ it.width ∧ 1/100 ≤ it.depth ∧ 1/100 ≤ it.height ∧
    0 ≤ it.product.weight) Iff.rfl

theorem overlapLen_comm (a₁ l₁ a₂ l₂ : ℚ) : overlapLen a₁ l₁ a₂ l₂ = overlapLen a₂ l₂ a₁ l₁ := by
  simp only [overlapLen, min_comm (a₁ + l₁), max_comm a₁]

theorem interVolume_comm (a b : PackedItem) : interVolume a b = interVolume b a := by
  rw [interVolume, interVolume, overlapLen_comm a.x a.width b.x b.width,
    overlapLen_comm a.y a.depth b.y b.depth, overlapLen_comm a.z a.height b.z b.height]

/-! ## Concrete data used by the witnesses -/

/-- The catalog product `'S'` (products.py, line 33). -/
def productS : Product := ⟨"S", 15.0, 10.0, 8.0, 0.5⟩

/-- The catalog box `'No.1'` (boxes.py, line 51). -/
def boxNo1 : TransportBox := ⟨"No.1", 37.5, 37.0, 24.0, 10.0⟩

/-- The catalog box `'No.6（100箱）'` (boxes.py, line 54). -/
def boxNo6 : TransportBox := ⟨"No.6（100箱）", 50.2, 40.2, 50.8, 25.0⟩

/-- A placeholder PackingResult used only as a `getD` default. -/
def junkResult : PackingResult := ⟨⟨"", 0, 0, 0, 0⟩, [], [], 0, 0, 0, false, 0⟩

/-- A placeholder PackedItem used only as a `getD`/`headD` default. -/
def junkPacked : PackedItem := ⟨productS, 0, 0, 0, 0, 0, 0, false⟩

/-- A small concrete request: two units of `'S'`. -/
def smallItems : List ItemEntry := [⟨productS, "S"⟩, ⟨productS, "S"⟩]

/-- The packing the engine produces for two units of `'S'` in box `'No.1'`. -/
def smallResult : PackingResult := (tryPackItems boxNo1 smallItems 1.0 2400).getD junkResult

def smallItem0 : PackedItem := smallResult.packed_items.headD junkPacked

def smallItem1 : PackedItem := (smallResult.packed_items.drop 1).headD junkPacked

/-! ## Claim C1 -/

/-- C1: for every PackingResult produced by a packing attempt
(`_try_pack_items` calling `_advanced_3d_packing`), every pair of distinct
PlacedItems in its placement list has zero intersection volume between
their axis-aligned boxes; touching faces are allowed (the intersection
length is clamped at 0, so abutting faces give volume 0). -/
theorem c1_no_overlap (box : TransportBox) (items : List ItemEntry) (tw tv : ℚ)
    (r : PackingResult) (h : tryPackItems box items tw tv = some r) :
    ∀ (i j : Fin r.packed_items.length), i ≠ j →
      interVolume (r.packed_items.get i) (r.packed_items.get j) = 0 := by
  have hpw : r.packed_items.Pairwise (fun a b => interVolume a b = 0) := by
    obtain ⟨_, _, _, hpl, _⟩ := tryPackItems_eq_some h
    rw [hpl]
    exact (advanced3dPacking_pairwise _ _ _ _).imp
      (fun hsep => interVolume_eq_zero_of_separated hsep)
  intro i j hij
  have hget := List.pairwise_iff_get.mp hpw
  rcases lt_or_gt_of_ne (Fin.val_ne_of_ne hij) with hlt | hlt
  · exact hget i j hlt
  · rw [interVolume_comm]
    exact hget j i hlt

theorem c1_no_overlap_witness :
    interVolume
      (smallResult.packed_items.get ⟨0, of_decide_eq_true (by with_unfolding_all rfl)⟩)
      (smallResult.packed_items.get ⟨1, of_decide_eq_true (by with_unfolding_all rfl)⟩) = 0 :=
  c1_no_overlap boxNo1 smallItems 1.0 2400 smallResult (by with_unfolding_all rfl)
    ⟨0, of_decide_eq_true (by with_unfolding_all rfl)⟩
    ⟨1, of_decide_eq_true (by with_unfolding_all rfl)⟩
    (Fin.ne_of_val_ne (by norm_num))

/-! ## Claim C2 -/

/-- C2: every PlacedItem in every produced PackingResult lies fully within
the box's inner bounds, for any request whose products have sane dimensions
(all catalog products do). -/
theorem c2_containment (box : TransportBox) (items : List ItemEntry) (tw tv : ℚ)
    (r : PackingResult) (h : tryPackItems box items tw tv = some r)
    (hitems : ∀ e ∈ items, prodOK e.product) :
    ∀ it ∈ r.packed_items,
      0 ≤ it.x ∧ it.x + it.width ≤ (box.inner_dimensions).1 ∧
      0 ≤ it.y ∧ it.y + it.depth ≤ (box.inner_dimensions).2.1 ∧
      0 ≤ it.z ∧ it.z + it.height ≤ (box.inner_dimensions).2.2 := by
  obtain ⟨_, _, _, hpl, _⟩ := tryPackItems_eq_some h
  rw [hpl]
  exact fun it hit => (advanced3dPacking_resultOK items _ _ _ hitems).2.1 it hit

theorem c2_containment_witness :
    0 ≤ smallItem0.x ∧ smallItem0.x + smallItem0.width ≤ (boxNo1.inner_dimensions).1 ∧
    0 ≤ smallItem0.y ∧ smallItem0.y + smallItem0.depth ≤ (boxNo1.inner_dimensions).2.1 ∧
    0 ≤ smallItem0.z ∧ smallItem0.z + smallItem0.height ≤ (boxNo1.inner_dimensions).2.2 :=
  c2_containment boxNo1 smallItems 1.0 2400 smallResult (by with_unfolding_all rfl)
    (of_decide_eq_true (by with_unfolding_all rfl))
    smallItem0 (of_decide_eq_true (by with_unfolding_all rfl))

/-! ## Claim C3 -/

/-- C3: in every produced PackingResult (a request of catalog-style products,
with the total weight the engine computes, against a box whose weight limit
is at most the 50 kg per-item load cap — all catalog boxes allow at most
25 kg), every PlacedItem strictly above the floor has summed footprint
overlap with the items whose top face sits at its z (within the 0.01
tolerance) covering at least 50% of its own footprint, and no item carries
a computed load of more than 50 kg; items at z = 0 are stable by fiat. -/
theorem c3_stability (box : TransportBox) (items : List ItemEntry) (tw tv : ℚ)
    (r : PackingResult) (h : tryPackItems box items tw tv = some r)
    (hitems : ∀ e ∈ items, prodOK e.product)
    (htw : tw = (items.map (fun e => e.product.weight)).sum)
    (hbox : box.max_weight ≤ 50) :
    ∀ (l₁ : List PackedItem) (it : PackedItem) (l₂ : List PackedItem),
      r.packed_items = l₁ ++ it :: l₂ →
      (0 < it.z →
        0.5 * (it.width * it.depth) ≤
          supportArea (l₁ ++ l₂) it.x it.y it.width it.depth it.z) ∧
      calculateWeightOnItem r.packed_items it ≤ 50 := by
  obtain ⟨hwt, _, _, hpl, hne, _⟩ := tryPackItems_eq_some h
  have hres := advanced3dPacking_resultOK items (box.inner_dimensions).1
    (box.inner_dimensions).2.1 (box.inner_dimensions).2.2 hitems
  rw [← hpl] at hres
  intro l₁ it l₂ hsplit
  have hmem : it ∈ r.packed_items := by rw [hsplit]; simp
  have hitOK : itemOK it := hres.2.2.1 it hmem
  constructor
  · -- the support invariant
    intro hz
    have hres2 : ResultOK (box.inner_dimensions).1 (box.inner_dimensions).2.1
        (box.inner_dimensions).2.2 (l₁ ++ it :: l₂) := by
      rw [← hsplit]; exact hres
    have hn : l₁.length < (l₁ ++ it :: l₂).length := by simp
    have htake : (l₁ ++ it :: l₂).take l₁.length = l₁ := List.take_left _ _
    have hget : (l₁ ++ it :: l₂).get ⟨l₁.length, hn⟩ = it := by
      rw [List.get_eq_getElem, List.getElem_append_right (le_refl l₁.length)]
      simp
    have hfact := hres2.2.2.2 l₁.length hn
    rw [htake, hget] at hfact
    have hdiv := hfact (ne_of_gt hz)
    have hwpos : (0 : ℚ) < it.width * it.depth :=
      mul_pos (lt_of_lt_of_le (by norm_num) hitOK.1) (lt_of_lt_of_le (by norm_num) hitOK.2.1)
    have hS : 0.5 * (it.width * it.depth) ≤
        supportArea l₁ it.x it.y it.width it.depth it.z :=
      (le_div_iff₀ hwpos).mp hdiv
    calc 0.5 * (it.width * it.depth)
        ≤ supportArea l₁ it.x it.y it.width it.depth it.z := hS
      _ ≤ supportArea l₁ it.x it.y it.width it.depth it.z +
            supportArea l₂ it.x it.y it.width it.depth it.z :=
          le_add_of_nonneg_right (supportArea_nonneg _ _ _ _ _ _)
      _ = supportArea (l₁ ++ l₂) it.x it.y it.width it.depth it.z :=
          (supportArea_append l₁ l₂ _ _ _ _ _).symm
  · -- the per-item load cap
    rw [calculateWeightOnItem_eq_sum]
    have hterm0 : weightTerm it it = 0 := weightTerm_self it hitOK.2.2.1
    have hb1 : ((l₁.map (weightTerm it)).sum : ℚ) ≤
        (l₁.map (fun j => j.product.weight)).sum := by
      apply List.sum_le_sum
      intro j hj
      exact weightTerm_le it j (hres.2.2.1 j (by rw [hsplit]; simp [hj]))
    have hb2 : ((l₂.map (weightTerm it)).sum : ℚ) ≤
        (l₂.map (fun j => j.product.weight)).sum := by
      apply List.sum_le_sum
      intro j hj
      exact weightTerm_le it j (hres.2.2.1 j (by rw [hsplit]; simp [hj]))
    have hsum_eq : ((r.packed_items.map (fun j => j.product.weight)).sum : ℚ) =
        (items.map (fun e => e.product.weight)).sum := by
      have hperm := advanced3dPacking_map_product items (box.inner_dimensions).1
        (box.inner_dimensions).2.1 (box.inner_dimensions).2.2 (hpl ▸ hne)
      rw [← hpl] at hperm
      have := (hperm.map (fun p => p.weight)).sum_eq
      rw [List.map_map, List.map_map] at this
      exact this
    have hsplit_sum : ((r.packed_items.map (fun j => j.product.weight)).sum : ℚ) =
        (l₁.map (fun j => j.product.weight)).sum + it.product.weight +
          (l₂.map (fun j => j.product.weight)).sum := by
      rw [hsplit, List.map_append, List.map_cons, List.sum_append, List.sum_cons]
      ring
    have hgoal_sum : ((r.packed_items.map (weightTerm it)).sum : ℚ) =
        (l₁.map (weightTerm it)).sum + ((l₂.map (weightTerm it)).sum : ℚ) := by
      rw [hsplit, List.map_append, List.map_cons, List.sum_append, List.sum_cons, hterm0]
      ring
    have : tw ≤ 50 := le_trans hwt hbox
    linarith [hb1, hb2, hsum_eq, hsplit_sum, hgoal_sum, htw]

theorem c3_stability_witness :
    ((0 < smallItem0.z →
      0.5 * (smallItem0.width * smallItem0.depth) ≤
        supportArea ([] ++ [smallItem1]) smallItem0.x smallItem0.y
          smallItem0.width smallItem0.depth smallItem0.z) ∧
    calculateWeightOnItem smallResult.packed_items smallItem0 ≤ 50) :=
  c3_stability boxNo1 smallItems 1.0 2400 smallResult (by with_unfolding_all rfl)
    (of_decide_eq_true (by with_unfolding_all rfl))
    (by with_unfolding_all rfl)
    (of_decide_eq_true (by with_unfolding_all rfl))
    [] smallItem0 [smallItem1] (by with_unfolding_all rfl)

/-! ## Claim C4 -/

/-- C4: a packing attempt returns a PackingResult only when every requested
unit is placed — the placement list has exactly one PlacedItem per requested
unit (its multiset of products is a permutation of the request's), so a
partial placement is never returned; when some item cannot be placed the
attempt yields `none`. -/
theorem c4_all_units_placed (box : TransportBox) (items : List ItemEntry) (tw tv : ℚ)
    (r : PackingResult) (h : tryPackItems box items tw tv = some r) :
    r.packed_items.length = items.length ∧
    (r.packed_items.map (fun it => it.product)).Perm (items.map (fun e => e.product)) := by
  obtain ⟨_, _, _, hpl, hne, _⟩ := tryPackItems_eq_some h
  have hperm : (r.packed_items.map (fun it => it.product)).Perm
      (items.map (fun e => e.product)) := by
    rw [hpl]
    exact advanced3dPacking_map_product items _ _ _ (hpl ▸ hne)
  refine ⟨?_, hperm⟩
  have := hperm.length_eq
  simpa using this

theorem c4_all_units_placed_witness :
    smallResult.packed_items.length = smallItems.length ∧
    (smallResult.packed_items.map (fun it => it.product)).Perm
      (smallItems.map (fun e => e.product)) :=
  c4_all_units_placed boxNo1 smallItems 1.0 2400 smallResult (by with_unfolding_all rfl)

/-! ## Claim C5 -/

/-- C5: the candidate box filter returns exactly the catalog boxes whose
inner volume and weight limit cover the request, sorted ascending by box
volume, and the empty list (not an error) when no box qualifies. -/
theorem c5_candidate_box_filter (V W : ℚ) :
    (∀ b, b ∈ find_suitable_boxes V W ↔
      (b ∈ boxList ∧ V ≤ b.inner_volume ∧ W ≤ b.max_weight)) ∧
    (find_suitable_boxes V W).Pairwise (fun a b => a.volume ≤ b.volume) ∧
    ((∀ b ∈ boxList, ¬(V ≤ b.inner_volume ∧ W ≤ b.max_weight)) →
      find_suitable_boxes V W = []) := by
  have hmem : ∀ b, b ∈ find_suitable_boxes V W ↔
      (b ∈ boxList ∧ V ≤ b.inner_volume ∧ W ≤ b.max_weight) := by
    intro b
    rw [find_suitable_boxes, List.mem_mergeSort, List.mem_filter]
    constructor
    · rintro ⟨hb, hcond⟩
      rw [Bool.and_eq_true, TransportBox.can_fit_volume, TransportBox.can_fit_weight] at hcond
      exact ⟨hb, of_decide_eq_true hcond.1, of_decide_eq_true hcond.2⟩
    · rintro ⟨hb, hv, hw⟩
      refine ⟨hb, ?_⟩
      rw [Bool.and_eq_true, TransportBox.can_fit_volume, TransportBox.can_fit_weight]
      exact ⟨decide_eq_true hv, decide_eq_true hw⟩
  refine ⟨hmem, ?_, ?_⟩
  · have htrans : ∀ a b c : TransportBox, decide (a.volume ≤ b.volume) = true →
        decide (b.volume ≤ c.volume) = true → decide (a.volume ≤ c.volume) = true :=
      fun a b c hab hbc =>
        decide_eq_true (le_trans (of_decide_eq_true hab) (of_decide_eq_true hbc))
    have htotal : ∀ a b : TransportBox,
        (decide (a.volume ≤ b.volume) || decide (b.volume ≤ a.volume)) = true := by
      intro a b
      rcases le_total a.volume b.volume with h | h <;> simp [decide_eq_true h]
    exact (List.sorted_mergeSort htrans htotal _).imp (fun hab => of_decide_eq_true hab)
  · intro hnone
    rw [List.eq_nil_iff_forall_not_mem]
    intro b hb
    obtain ⟨hbl, hv, hw⟩ := (hmem b).mp hb
    exact hnone b hbl ⟨hv, hw⟩

theorem c5_candidate_box_filter_witness :
    boxNo1 ∈ find_suitable_boxes 20000 5 ∧ find_suitable_boxes 1000000 1000 = [] :=
  ⟨((c5_candidate_box_filter 20000 5).1 boxNo1).mpr
      ⟨of_decide_eq_true (by with_unfolding_all rfl),
       of_decide_eq_true (by with_unfolding_all rfl),
       of_decide_eq_true (by with_unfolding_all rfl)⟩,
   (c5_candidate_box_filter 1000000 1000).2.2
      (of_decide_eq_true (by with_unfolding_all rfl))⟩

/-! ## Claim C6 -/

theorem find?_first {α : Type} (p : α → Bool) :
    ∀ (l₁ : List α) (r : α) (l₂ : List α), (∀ s ∈ l₁, p s = false) → p r = true →
      (l₁ ++ r :: l₂).find? p = some r := by
  intro l₁
  induction l₁ with
  | nil =>
    intro r l₂ _ hr
    rw [List.nil_append]
    exact List.find?_cons_of_pos _ hr
  | cons x xs ih =>
    intro r l₂ hall hr
    rw [List.cons_append, List.find?_cons_of_neg]
    · exact ih r l₂ (fun s hs => hall s (List.mem_cons_of_mem _ hs)) hr
    · rw [hall x (List.mem_cons_self _ _)]
      exact Bool.false_ne_true

theorem foldl_maxEff_spec :
    ∀ (xs : List PackingResult) (b : PackingResult),
      (xs.foldl (fun best r =>
          if best.packing_efficiency < r.packing_efficiency then r else best) b = b ∨
        xs.foldl (fun best r =>
          if best.packing_efficiency < r.packing_efficiency then r else best) b ∈ xs) ∧
      b.packing_efficiency ≤ (xs.foldl (fun best r =>
          if best.packing_efficiency < r.packing_efficiency then r else best) b).packing_efficiency ∧
      ∀ s ∈ xs, s.packing_efficiency ≤ (xs.foldl (fun best r =>
          if best.packing_efficiency < r.packing_efficiency then r else best) b).packing_efficiency := by
  intro xs
  induction xs with
  | nil => intro b; simp
  | cons x xs ih =>
    intro b
    rw [List.foldl_cons]
    by_cases hcmp : b.packing_efficiency < x.packing_efficiency
    · rw [if_pos hcmp]
      obtain ⟨hmem, hb, hall⟩ := ih x
      refine ⟨?_, le_trans (le_of_lt hcmp) hb, ?_⟩
      · rcases hmem with h | h
        · right; rw [h]; exact List.mem_cons_self _ _
        · right; exact List.mem_cons_of_mem _ h
      · intro s hs
        rcases List.mem_cons.mp hs with h | h
        · subst h; exact hb
        · exact hall s h
    · rw [if_neg hcmp]
      obtain ⟨hmem, hb, hall⟩ := ih b
      refine ⟨?_, hb, ?_⟩
      · rcases hmem with h | h
        · left; exact h
        · right; exact List.mem_cons_of_mem _ h
      · intro s hs
        rcases List.mem_cons.mp hs with h | h
        · subst h; exact le_trans (le_of_not_lt hcmp) hb
        · exact hall s h

theorem maxByEfficiency_spec (results : List PackingResult) (hne : results ≠ []) :
    ∃ m, maxByEfficiency results = some m ∧ m ∈ results ∧
      ∀ s ∈ results, s.packing_efficiency ≤ m.packing_efficiency := by
  cases results with
  | nil => exact absurd rfl hne
  | cons x xs =>
    rw [maxByEfficiency]
    obtain ⟨hmem, hb, hall⟩ := foldl_maxEff_spec xs x
    refine ⟨_, rfl, ?_, ?_⟩
    · rcases hmem with h | h
      · rw [h]; exact List.mem_cons_self _ _
      · exact List.mem_cons_of_mem _ h
    · intro s hs
      rcases List.mem_cons.mp hs with h | h
      · subst h; exact hb
      · exact hall s h

/-- C6: the recommendation policy over a list of feasible results: `none`
on the empty list; otherwise the first result with packing_efficiency ≥ 60;
else the first with utilization_rate ≥ 50; else a result of maximum
packing_efficiency. -/
theorem c6_recommendation_policy (results : List PackingResult) :
    (results = [] → get_packing_recommendation results = none) ∧
    (∀ (l₁ : List PackingResult) (r : PackingResult) (l₂ : List PackingResult),
      results = l₁ ++ r :: l₂ → 60 ≤ r.packing_efficiency →
      (∀ s ∈ l₁, s.packing_efficiency < 60) →
      get_packing_recommendation results = some r) ∧
    ((∀ s ∈ results, s.packing_efficiency < 60) →
      ∀ (l₁ : List PackingResult) (r : PackingResult) (l₂ : List PackingResult),
      results = l₁ ++ r :: l₂ → 50 ≤ r.utilization_rate →
      (∀ s ∈ l₁, s.utilization_rate < 50) →
      get_packing_recommendation results = some r) ∧
    ((∀ s ∈ results, s.packing_efficiency < 60 ∧ s.utilization_rate < 50) →
      results ≠ [] →
      ∃ m, get_packing_recommendation results = some m ∧ m ∈ results ∧
        ∀ s ∈ results, s.packing_efficiency ≤ m.packing_efficiency) := by
  refine ⟨?_, ?_, ?_, ?_⟩
  · intro h
    rw [get_packing_recommendation, if_pos h]
  · intro l₁ r l₂ hsplit h60 hfirst
    have hne : results ≠ [] := by rw [hsplit]; simp
    rw [get_packing_recommendation, if_neg hne]
    have hf : results.find? (fun s => decide (s.packing_efficiency ≥ 60)) = some r := by
      rw [hsplit]
      exact find?_first _ l₁ r l₂
        (fun s hs => decide_eq_false (not_le.mpr (hfirst s hs))) (decide_eq_true h60)
    rw [hf]
  · intro hall l₁ r l₂ hsplit h50 hfirst
    have hne : results ≠ [] := by rw [hsplit]; simp
    rw [get_packing_recommendation, if_neg hne]
    have hf1 : results.find? (fun s => decide (s.packing_efficiency ≥ 60)) = none :=
      List.find?_eq_none.mpr
        (fun s hs hdec => absurd (of_decide_eq_true hdec) (not_le.mpr (hall s hs)))
    rw [hf1]
    have hf2 : results.find? (fun s => decide (s.utilization_rate ≥ 50)) = some r := by
      rw [hsplit]
      exact find?_first _ l₁ r l₂
        (fun s hs => decide_eq_false (not_le.mpr (hfirst s hs))) (decide_eq_true h50)
    rw [hf2]
  · intro hall hne
    rw [get_packing_recommendation, if_neg hne]
    have hf1 : results.find? (fun s => decide (s.packing_efficiency ≥ 60)) = none :=
      List.find?_eq_none.mpr
        (fun s hs hdec => absurd (of_decide_eq_true hdec) (not_le.mpr (hall s hs).1))
    have hf2 : results.find? (fun s => decide (s.utilization_rate ≥ 50)) = none :=
      List.find?_eq_none.mpr
        (fun s hs hdec => absurd (of_decide_eq_true hdec) (not_le.mpr (hall s hs).2))
    rw [hf1, hf2]
    exact maxByEfficiency_spec results hne

/-- Two concrete results used to exercise the recommendation policy. -/
def recoA : PackingResult := ⟨boxNo1, [], [], 0, 0, 10, true, 20⟩

def recoB : PackingResult := ⟨boxNo1, [], [], 0, 0, 30, true, 70⟩

theorem c6_recommendation_policy_witness :
    get_packing_recommendation [recoA, recoB] = some recoB :=
  (c6_recommendation_policy [recoA, recoB]).2.1 [recoA] recoB [] rfl
    (of_decide_eq_true (by with_unfolding_all rfl))
    (of_decide_eq_true (by with_unfolding_all rfl))

/-! ## Claim C10 -/

theorem innerFold_eq (today : ℤ) (r : PackingResult) (opts : List (String × Bool)) :
    ∀ (entries : List (String × List CarrierService)) (acc : List EnhancedShippingOption),
      (entries.foldlM (fun acc2 entry =>
        match processResultCarrier today r entry.1 entry.2 opts with
        | .error _ => pure acc2
        | .ok os => pure (acc2 ++ os)) acc : Except PyErr (List EnhancedShippingOption)) =
      .ok (acc ++ entries.flatMap (fun entry =>
        match processResultCarrier today r entry.1 entry.2 opts with
        | .error _ => []
        | .ok os => os)) := by
  intro entries
  induction entries with
  | nil => intro acc; rw [List.foldlM_nil, List.flatMap_nil, List.append_nil]; rfl
  | cons e es ih =>
    intro acc
    rw [List.foldlM_cons, List.flatMap_cons]
    cases hp : processResultCarrier today r e.1 e.2 opts with
    | error err =>
      show (es.foldlM _ acc : Except PyErr _) = _
      rw [ih acc, List.nil_append]
    | ok os =>
      show (es.foldlM _ (acc ++ os) : Except PyErr _) = _
      rw [ih (acc ++ os), List.append_assoc]

theorem outerFold_eq (today : ℤ) (opts : List (String × Bool)) :
    ∀ (results : List PackingResult) (acc : List EnhancedShippingOption),
      (results.foldlM (fun acc result =>
        servicesTable.foldlM (fun acc2 entry =>
          match processResultCarrier today result entry.1 entry.2 opts with
          | .error _ => pure acc2
          | .ok os => pure (acc2 ++ os)) acc) acc : Except PyErr (List EnhancedShippingOption)) =
      .ok (acc ++ results.flatMap (fun result => servicesTable.flatMap (fun entry =>
        match processResultCarrier today result entry.1 entry.2 opts with
        | .error _ => []
        | .ok os => os))) := by
  intro results
  induction results with
  | nil => intro acc; rw [List.foldlM_nil, List.flatMap_nil, List.append_nil]; rfl
  | cons r rs ih =>
    intro acc
    rw [List.foldlM_cons, List.flatMap_cons, innerFold_eq]
    show (rs.foldlM _ _ : Except PyErr _) = _
    rw [ih, List.append_assoc]

/-- C10: the option ranker never lets an exception escape: the inner
per-carrier handler turns every failed (result, carrier) block into a skip
while the other blocks' options are kept, the outer handler never fires
(the collection step always yields `ok`), and the caller always receives a
plain — possibly empty — list, namely the ranked collection. -/
theorem c10_no_exception_escapes (today : ℤ) (results : List PackingResult)
    (opts : List (String × Bool)) :
    getEnhancedShippingOptionsE today results opts =
      .ok (results.flatMap (fun result => servicesTable.flatMap (fun entry =>
        match processResultCarrier today result entry.1 entry.2 opts with
        | .error _ => []
        | .ok os => os))) ∧
    getEnhancedShippingOptions today results opts =
      rankOptions (results.flatMap (fun result => servicesTable.flatMap (fun entry =>
        match processResultCarrier today result entry.1 entry.2 opts with
        | .error _ => []
        | .ok os => os))) := by
  have h1 : getEnhancedShippingOptionsE today results opts =
      .ok (results.flatMap (fun result => servicesTable.flatMap (fun entry =>
        match processResultCarrier today result entry.1 entry.2 opts with
        | .error _ => []
        | .ok os => os))) := by
    rw [getEnhancedShippingOptionsE, outerFold_eq, List.nil_append]
  refine ⟨h1, ?_⟩
  rw [getEnhancedShippingOptions, h1]

/-! ## Claim C7 -/

/-- A feasible result for the catalog box `'No.6（100箱）'`, which has no
exact entry in the rate table (the table only knows `'No.6'`). -/
def pr6 : PackingResult := ⟨boxNo6, [], [], 0, 0, 0, true, 0⟩

/-- C7 (code bug): for a (result, carrier) pair with no exact rate entry the
source is supposed to fall back to `_create_default_rate`, but the carrier's
rate lookup dies first (`r.box_size` on a `ShippingRate` that has no such
field) and the fallback itself cannot construct a `ShippingRate` (wrong
keywords), so the carrier is silently skipped and no option is produced:
the box has no rate entry, the default-rate constructor raises TypeError,
the per-carrier body raises AttributeError, and the caller gets `[]`
instead of ranked options with the ¥800 default. -/
theorem c7_missing_rate_fallback_bug :
    (ratesList.filter (fun rt => rt.box_number == pr6.box.number)) = [] ∧
    createDefaultRate "ヤマト運輸" pr6.box.number = .error .typeError ∧
    processResultCarrier 0 pr6 "ヤマト運輸" ((servicesTable.lookup "ヤマト運輸").getD []) [] =
      .error .attributeError ∧
    getEnhancedShippingOptions 0 [pr6] [] = [] := by
  refine ⟨?_, rfl, ?_, ?_⟩
  · with_unfolding_all rfl
  · with_unfolding_all rfl
  · with_unfolding_all rfl

/-! ## Claim C8 -/

/-- The `'宅急便'` service (multi_carrier.py, lines 45-52): a
next-or-second-day (`'翌日-翌々日'`) service. -/
def serviceTakkyubin : CarrierService :=
  ⟨"ヤマト運輸", "宅急便", "翌日-翌々日", true, true, ["時間指定", "再配達無料", "コンビニ受取"]⟩

/-- The `'飛脚メール便'` service (multi_carrier.py, lines 79-86). -/
def serviceSagawaMail : CarrierService :=
  ⟨"佐川急便", "飛脚メール便", "2-4日", true, false, ["ポスト投函", "安価"]⟩

/-- The `'佐川急便'` entry of the services table. -/
def sagawaEntry : String × List CarrierService :=
  ("佐川急便",
    [⟨"佐川急便", "飛脚宅配便", "翌日-翌々日", true, true, ["時間指定", "営業所留め"]⟩,
     serviceSagawaMail])

/-- A concrete option for the next-or-second-day service (cost sub-score 1
since it is alone, quality 0.9, utilization 0). -/
def optNextOrSecond : EnhancedShippingOption :=
  ⟨pr6, ⟨"ヤマト運輸", "100", "No.1", 1300⟩, serviceTakkyubin, 0, 1300, 0, 0⟩

/-- C8 counterexample: the delivery-speed sub-score of a next-or-second-day
service is 1.0, not the claimed 0.8 — the label `'翌日-翌々日'` contains the
substring `'翌日'`, so the first branch fires; on a singleton list the full
recommendation score is 0.4 + 1.0·0.3 + 0.18 + 0 = 0.88, where the claim
would demand 0.4 + 0.8·0.3 + 0.18 + 0 = 0.82. -/
theorem c8_speed_bucket_counterexample :
    serviceTakkyubin.delivery_time = "翌日-翌々日" ∧
    speedScore serviceTakkyubin.delivery_time = 1 ∧
    (1 : ℚ) ≠ 0.8 ∧
    (calculateRecommendationScores [optNextOrSecond]).map
      (fun o => o.recommendation_score) = [0.88] ∧
    (0.88 : ℚ) ≠ 0.4 + 0.8 * 0.3 + 0.18 + 0 := by
  refine ⟨rfl, ?_, by norm_num, ?_, by norm_num⟩
  · with_unfolding_all rfl
  · with_unfolding_all rfl

/-- C8 amended: the speed sub-score is 1.0 for every service whose
delivery-time label contains the next-day marker — including the
next-or-second-day bucket — 0.8 only for a label with the second-day marker
but no next-day marker (no catalog service has one), and 0.6 otherwise; over
the catalog's services this means 0.6 exactly for the `'2-4日'` bucket and
1.0 for all others. -/
theorem c8_speed_bucket_amended :
    (∀ dt : String, pyStrIn "翌日" dt = true → speedScore dt = 1) ∧
    (∀ entry ∈ servicesTable, ∀ s ∈ entry.2,
      speedScore s.delivery_time = if s.delivery_time = "2-4日" then 0.6 else 1) := by
  constructor
  · intro dt hdt
    rw [speedScore, if_pos hdt]
    norm_num
  · exact of_decide_eq_true (by with_unfolding_all rfl)

theorem c8_speed_bucket_amended_witness :
    speedScore serviceSagawaMail.delivery_time =
      (if serviceSagawaMail.delivery_time = "2-4日" then 0.6 else 1) ∧
    speedScore "翌日" = 1 :=
  ⟨(c8_speed_bucket_amended).2 sagawaEntry
      (List.Mem.tail _ (List.Mem.head _)) serviceSagawaMail
      (List.Mem.tail _ (List.Mem.head _)),
   (c8_speed_bucket_amended).1 "翌日" (by with_unfolding_all rfl)⟩

/-! ## Claim C9 -/

/-- C9 counterexample: the claim's premise misstates the catalog — the
product `'S'` is 15×10×8 cm and 0.5 kg (products.py, line 33), not
6.5×6.5×6.5 cm and 0.073 kg. -/
theorem c9_scenario_a_counterexample :
    get_product "S" = some ⟨"S", 15, 10, 8, 0.5⟩ ∧
    ¬ ((get_product "S").map (fun p => (p.width, p.depth, p.height, p.weight)) =
        some ((6.5 : ℚ), (6.5 : ℚ), (6.5 : ℚ), (0.073 : ℚ))) := by
  constructor
  · with_unfolding_all rfl
  · intro h
    rw [show (get_product "S").map (fun p => (p.width, p.depth, p.height, p.weight)) =
        some ((15 : ℚ), (10 : ℚ), (8 : ℚ), (0.5 : ℚ)) by with_unfolding_all rfl] at h
    have h2 := Option.some.inj h
    have h3 : (15 : ℚ) = 6.5 := congrArg (fun q => q.1) h2
    norm_num at h3

set_option maxRecDepth 4000000 in
set_option maxHeartbeats 400000000 in
/-- C9 amended: with the catalog's `'S'` being 15×10×8 cm and 0.5 kg,
requesting 50 units against the catalog box `'No.6（100箱）'` — whose inner
volume exceeds the 50×1200 cm³ requested and whose max_weight covers the
25 kg total — yields a feasible PackingResult whose utilization_rate equals
(50×1200)/inner_volume×100. -/
theorem c9_scenario_a_amended :
    50 * (1200 : ℚ) < boxNo6.inner_volume ∧
    (25 : ℚ) ≤ boxNo6.max_weight ∧
    (tryPackItems boxNo6 (List.replicate 50 ⟨productS, "S"⟩) (50 * 0.5) (50 * 1200)).map
      (fun r => (r.is_feasible, r.utilization_rate)) =
      some (true, 50 * 1200 / boxNo6.inner_volume * 100) := by
  refine ⟨?_, ?_, ?_⟩
  · exact of_decide_eq_true (by with_unfolding_all rfl)
  · exact of_decide_eq_true (by with_unfolding_all rfl)
  · with_unfolding_all rfl

end MinoruPacking
